import Mathlib

/-!
Verification of the floating-window system: the pointer-driven geometry
engine (`FloatingWindow` in `src/src/components/HelloWorld.tsx`) and the
window-state registry (`WindowProvider` / `useWindows`, whose context file
is not present in the source tree and is therefore modelled from the spec).

Coordinates and dimensions are embedded as `Int` (the source works with
JavaScript numbers used only through `+`, `-`, `Math.max` and comparisons,
so integer inputs stay integers and no rounding is involved).
-/

namespace FloatingWin

/-- A point: pointer position or window position, in host-surface pixels. -/
structure Pt where
  x : Int
  y : Int
deriving Repr, DecidableEq

/-- A window size, in pixels. -/
structure WinSize where
  width : Int
  height : Int
deriving Repr, DecidableEq

/-- The geometric state of one window: `position` and `size` React state
of `FloatingWindow`. -/
structure WinGeom where
  position : Pt
  size : WinSize
deriving Repr, DecidableEq

/-- Embedding of the `resizeStart` ref of `FloatingWindow`:
`{ x, y, width, height }` captured at resize-gesture start
(`x`/`y` are the pointer coordinates, `width`/`height` the window size). -/
structure ResizeStart where
  x : Int
  y : Int
  width : Int
  height : Int
deriving Repr, DecidableEq

/-- The props of `FloatingWindow` that feed the geometry engine, with the
source defaults `initialX = 100`, `initialY = 100`, `initialWidth = 400`,
`initialHeight = 300`, `minWidth = 200`, `minHeight = 150`. -/
structure FloatingWindowProps where
  initialX : Int := 100
  initialY : Int := 100
  initialWidth : Int := 400
  initialHeight : Int := 300
  minWidth : Int := 200
  minHeight : Int := 150
deriving Repr, DecidableEq

/-- Initial geometry of a `FloatingWindow`: the `useState` initialisers
`position = { x: initialX, y: initialY }`,
`size = { width: initialWidth, height: initialHeight }`. -/
def initState (p : FloatingWindowProps) : WinGeom :=
  ⟨⟨p.initialX, p.initialY⟩, ⟨p.initialWidth, p.initialHeight⟩⟩

/-- Embedding of `handleMouseDownDrag`: the `dragStart` ref captured at
gesture start, `{ x: e.clientX - position.x, y: e.clientY - position.y }`. -/
def handleMouseDownDrag (s : WinGeom) (e : Pt) : Pt :=
  ⟨e.x - s.position.x, e.y - s.position.y⟩

/-- Embedding of `handleMouseDownResize`: the `resizeStart` ref captured at
gesture start, `{ x: e.clientX, y: e.clientY, width: size.width,
height: size.height }`. -/
def handleMouseDownResize (s : WinGeom) (e : Pt) : ResizeStart :=
  ⟨e.x, e.y, s.size.width, s.size.height⟩

/-- Embedding of the `isDragging` branch of `handleMouseMove`: one
pointer-move during a drag gesture sets
`position = { x: e.clientX - dragStart.x, y: e.clientY - dragStart.y }`
unconditionally; `size` is untouched. -/
def dragMove (dragStart : Pt) (s : WinGeom) (e : Pt) : WinGeom :=
  { s with position := ⟨e.x - dragStart.x, e.y - dragStart.y⟩ }

/-- Embedding of the `isResizing` branch of `handleMouseMove`: one
pointer-move during a resize gesture.  `dir` is the `resizeDirection`
string as a list of characters, `resizeStart` the ref captured at gesture
start, `s` the window geometry committed by the previous move (the handler
closes over the latest `position` because `position` is in the effect's
dependency list), `e` the pointer.  Mirrors the source statement by
statement: `deltaX`/`deltaY` from the gesture-start pointer, `newWidth`
and `newHeight` initialised from `resizeStart`, the `e`/`s` branches with
`Math.max`, the `w`/`n` branches guarded by `potentialWidth >= minWidth`
(resp. height), `setSize` always, `setPosition` only when `w` or `n` is in
the direction. -/
def resizeMove (minWidth minHeight : Int) (dir : List Char)
    (resizeStart : ResizeStart) (s : WinGeom) (e : Pt) : WinGeom :=
  let deltaX := e.x - resizeStart.x
  let deltaY := e.y - resizeStart.y
  let newWidth0 := resizeStart.width
  let newHeight0 := resizeStart.height
  let newX0 := s.position.x
  let newY0 := s.position.y
  let newWidth1 :=
    if dir.contains 'e' then max minWidth (resizeStart.width + deltaX) else newWidth0
  let newHeight1 :=
    if dir.contains 's' then max minHeight (resizeStart.height + deltaY) else newHeight0
  let wRes :=
    if dir.contains 'w' then
      let potentialWidth := resizeStart.width - deltaX
      if minWidth ≤ potentialWidth then (potentialWidth, newX0 + deltaX)
      else (newWidth1, newX0)
    else (newWidth1, newX0)
  let nRes :=
    if dir.contains 'n' then
      let potentialHeight := resizeStart.height - deltaY
      if minHeight ≤ potentialHeight then (potentialHeight, newY0 + deltaY)
      else (newHeight1, newY0)
    else (newHeight1, newY0)
  { position :=
      if dir.contains 'w' || dir.contains 'n' then ⟨wRes.2, nRes.2⟩ else s.position,
    size := ⟨wRes.1, nRes.1⟩ }

/-- A complete pointer gesture: the kind (drag, or resize with a direction
string), the pointer position at the starting mouse-down, and the sequence
of pointer-move positions until mouse-up. -/
inductive Gesture where
  | drag (startPointer : Pt) (moves : List Pt)
  | resize (dir : List Char) (startPointer : Pt) (moves : List Pt)
deriving Repr, DecidableEq

/-- Run one complete gesture from geometry `s`: capture the anchor ref at
mouse-down, then process the pointer-moves in order, each seeing the
geometry committed by the previous one while the anchor stays fixed. -/
def runGesture (minWidth minHeight : Int) (s : WinGeom) : Gesture → WinGeom
  | .drag sp moves => moves.foldl (dragMove (handleMouseDownDrag s sp)) s
  | .resize dir sp moves =>
      moves.foldl (resizeMove minWidth minHeight dir (handleMouseDownResize s sp)) s

/-- All geometries a gesture passes through, the pre-gesture one included. -/
def gestureTrace (minWidth minHeight : Int) (s : WinGeom) : Gesture → List WinGeom
  | .drag sp moves => moves.scanl (dragMove (handleMouseDownDrag s sp)) s
  | .resize dir sp moves =>
      moves.scanl (resizeMove minWidth minHeight dir (handleMouseDownResize s sp)) s

/-- All geometries a window passes through over a sequence of gestures. -/
def lifecycleTrace (minWidth minHeight : Int) : WinGeom → List Gesture → List WinGeom
  | s, [] => [s]
  | s, g :: gs =>
      gestureTrace minWidth minHeight s g ++
        lifecycleTrace minWidth minHeight (runGesture minWidth minHeight s g) gs

end FloatingWin

namespace Registry

/-- Modelled from the spec: `src/contexts/WindowContext.tsx` (the
`WindowProvider` implementing the Window State Registry) is not present in
the source tree — only its barrel export, documentation and callers are —
so the `WindowState` record is taken from the spec's data model: `id`,
`title`, current `position`/`size`, `minSize` fixed at creation, `zOrder`,
`isMinimized`.  The opaque `content` and presentation hints are omitted
(the core never inspects them). -/
structure WindowState where
  id : String
  title : String
  x : Int
  y : Int
  width : Int
  height : Int
  minWidth : Int
  minHeight : Int
  zOrder : Int
  isMinimized : Bool
deriving Repr, DecidableEq

/-- Modelled from the spec: the `WindowConfig` accepted by `createWindow`,
with the documented defaults (`initialX/Y = 100`, `initialWidth = 400`,
`initialHeight = 300`, `minWidth = 200`, `minHeight = 150`). -/
structure WindowConfig where
  id : String
  title : String
  initialX : Int := 100
  initialY : Int := 100
  initialWidth : Int := 400
  initialHeight : Int := 300
  minWidth : Int := 200
  minHeight : Int := 150
deriving Repr, DecidableEq

/-- Whether a record with the given id is currently open. -/
def hasId (ws : List WindowState) (i : String) : Bool :=
  ws.any (fun w => w.id == i)

/-- Modelled from the spec: `nextZOrder()` returns
`max(current zOrders, BASE) + 1` with `BASE = 1000`, computed freshly over
the windows open at call time. -/
def nextZOrder (ws : List WindowState) : Int :=
  ws.foldl (fun m w => max m w.zOrder) 1000 + 1

/-- Modelled from the spec: `createWindow(config)` — if a record with
`config.id` already exists the call is a silent no-op, otherwise a new
record is appended with `zOrder = nextZOrder()` and `isMinimized = false`. -/
def createWindow (ws : List WindowState) (c : WindowConfig) : List WindowState :=
  if hasId ws c.id then ws
  else
    ws ++ [⟨c.id, c.title, c.initialX, c.initialY, c.initialWidth, c.initialHeight,
      c.minWidth, c.minHeight, nextZOrder ws, false⟩]

/-- Modelled from the spec: `closeWindow(id)` removes the record if
present, otherwise no-op. -/
def closeWindow (ws : List WindowState) (i : String) : List WindowState :=
  ws.filter (fun w => w.id != i)

/-- Modelled from the spec: `bringToFront(id)` — if present, sets
`zOrder = nextZOrder()` (freshly computed) on that record; `isMinimized`
untouched; no-op if absent. -/
def bringToFront (ws : List WindowState) (i : String) : List WindowState :=
  if hasId ws i then
    let z := nextZOrder ws
    ws.map (fun w => if w.id == i then { w with zOrder := z } else w)
  else ws

/-- Modelled from the spec: `minimizeWindow(id)` sets `isMinimized = true`
if present and not already minimized; otherwise no-op; geometry preserved. -/
def minimizeWindow (ws : List WindowState) (i : String) : List WindowState :=
  ws.map (fun w =>
    if w.id == i && !w.isMinimized then { w with isMinimized := true } else w)

/-- Modelled from the spec: `restoreWindow(id)` sets `isMinimized = false`
if present and minimized; geometry and z-order unchanged. -/
def restoreWindow (ws : List WindowState) (i : String) : List WindowState :=
  ws.map (fun w =>
    if w.id == i && w.isMinimized then { w with isMinimized := false } else w)

/-- One registry operation. -/
inductive Op where
  | create (c : WindowConfig)
  | close (i : String)
  | front (i : String)
  | minimize (i : String)
  | restore (i : String)
deriving Repr, DecidableEq

/-- Apply one operation to the registry state. -/
def applyOp (ws : List WindowState) : Op → List WindowState
  | .create c => createWindow ws c
  | .close i => closeWindow ws i
  | .front i => bringToFront ws i
  | .minimize i => minimizeWindow ws i
  | .restore i => restoreWindow ws i

/-- Run a sequence of operations from a registry state. -/
def runOps (ws : List WindowState) (ops : List Op) : List WindowState :=
  ops.foldl applyOp ws

/-- The z-order values one operation assigns: `createWindow` on a fresh id
and `bringToFront` on a present id each assign one freshly computed
`nextZOrder`; every other case assigns none. -/
def assignedBy (ws : List WindowState) : Op → List Int
  | .create c => if hasId ws c.id then [] else [nextZOrder ws]
  | .front i => if hasId ws i then [nextZOrder ws] else []
  | _ => []

/-- All z-order values assigned while running an operation sequence, in
assignment order — the registry's assignment stream over its lifetime. -/
def assignedTrace : List WindowState → List Op → List Int
  | _, [] => []
  | ws, op :: ops => assignedBy ws op ++ assignedTrace (applyOp ws op) ops

/-- Registry state invariant: currently open windows have pairwise
distinct ids and pairwise distinct z-orders, all at least `BASE + 1`. -/
def RegInv (ws : List WindowState) : Prop :=
  ws.Pairwise (fun a b => a.id ≠ b.id) ∧
  ws.Pairwise (fun a b => a.zOrder ≠ b.zOrder) ∧
  ∀ w ∈ ws, 1001 ≤ w.zOrder

/-- The open windows are strictly increasing in z-order in list
(creation) order. -/
def SortedZ (ws : List WindowState) : Prop :=
  ws.Pairwise (fun a b => a.zOrder < b.zOrder)

/-- Sample configs used by concrete instances below. -/
def cfgA : WindowConfig := ⟨"A", "Window A", 100, 100, 400, 300, 200, 150⟩

def cfgA2 : WindowConfig := ⟨"A", "Other title", 130, 130, 500, 400, 210, 160⟩

def cfgB : WindowConfig := ⟨"B", "Window B", 130, 130, 400, 300, 200, 150⟩

def cfgC : WindowConfig := ⟨"C", "Window C", 160, 160, 400, 300, 200, 150⟩

/-- Sample records used by concrete instances below: the records created
by `cfgA` and `cfgB` on an empty registry, and `recA` raised to 1003. -/
def recA : WindowState := ⟨"A", "Window A", 100, 100, 400, 300, 200, 150, 1001, false⟩

def recB : WindowState := ⟨"B", "Window B", 130, 130, 400, 300, 200, 150, 1002, false⟩

def recA3 : WindowState := { recA with zOrder := 1003 }

end Registry

namespace FloatingWin

theorem foldl_dragMove_size (a : Pt) :
    ∀ (l : List Pt) (s : WinGeom), (l.foldl (dragMove a) s).size = s.size := by
  intro l
  induction l with
  | nil => intro s; rfl
  | cons p l ih => intro s; rw [List.foldl_cons]; exact ih (dragMove a s p)

/-- C8: while a drag gesture is active, every pointer-move sets
`position = pointerPosition - dragAnchor` unconditionally (with
`dragAnchor = startPointer - positionAtGestureStart` captured by
`handleMouseDownDrag`), leaves `size` untouched, and no bounds clamping is
applied: some pointer position sends the window to a negative x, i.e. off
the visible surface. -/
theorem drag_move_unclamped (s st : WinGeom) (sp e : Pt) :
    (dragMove (handleMouseDownDrag s sp) st e).position =
      ⟨e.x - (sp.x - s.position.x), e.y - (sp.y - s.position.y)⟩ ∧
    (dragMove (handleMouseDownDrag s sp) st e).size = st.size ∧
    ∃ e' : Pt, (dragMove (handleMouseDownDrag s sp) st e').position.x < 0 := by
  refine ⟨rfl, rfl, ⟨sp.x - s.position.x - 1, 0⟩, ?_⟩
  simp [dragMove, handleMouseDownDrag]

/-- C10: drag output is path-independent — processing any pointer-move
sequence whose last position is `p` leaves the window exactly where
processing the single move `p` would: the final geometry depends only on
the last pointer position and the gesture-start anchor. -/
theorem drag_path_independent (minW minH : Int) (s : WinGeom) (sp : Pt)
    (ms : List Pt) (p : Pt) :
    runGesture minW minH s (.drag sp (ms ++ [p])) =
      runGesture minW minH s (.drag sp [p]) := by
  show (ms ++ [p]).foldl (dragMove (handleMouseDownDrag s sp)) s =
    [p].foldl (dragMove (handleMouseDownDrag s sp)) s
  rw [List.foldl_append]
  simp only [List.foldl_cons, List.foldl_nil, dragMove]
  rw [foldl_dragMove_size]

/-- C9: for a resize direction that includes east (so, the `e`, `ne` or
`se` handle — never also west), every pointer-move sets
`width = max(minWidth, resizeAnchor.width + delta.x)` and leaves
`position.x` unchanged; symmetrically, a direction that includes south
(and not north) sets `height = max(minHeight, resizeAnchor.height +
delta.y)` and leaves `position.y` unchanged. -/
theorem east_south_resize (minW minH : Int) (dir : List Char) (rs : ResizeStart)
    (s : WinGeom) (e : Pt) :
    ('e' ∈ dir → 'w' ∉ dir →
      (resizeMove minW minH dir rs s e).size.width =
          max minW (rs.width + (e.x - rs.x)) ∧
      (resizeMove minW minH dir rs s e).position.x = s.position.x) ∧
    ('s' ∈ dir → 'n' ∉ dir →
      (resizeMove minW minH dir rs s e).size.height =
          max minH (rs.height + (e.y - rs.y)) ∧
      (resizeMove minW minH dir rs s e).position.y = s.position.y) := by
  constructor
  · intro he hw
    constructor
    · simp [resizeMove, he, hw]
    · by_cases hn : 'n' ∈ dir <;> simp [resizeMove, hw, hn]
  · intro hs hn
    constructor
    · simp [resizeMove, hs, hn]
    · by_cases hw : 'w' ∈ dir <;> simp [resizeMove, hw, hn]

/-- Witness for C9 on the `se` handle: on a window of width 400, height
300 at minima 200/150, a pointer-move of delta (+50, +30) yields width
450 and height 330 with the position untouched — in particular the spec's
east-by-plus-50 example. -/
theorem east_south_resize_witness :
    (resizeMove 200 150 ['s', 'e'] ⟨0, 0, 400, 300⟩ ⟨⟨100, 100⟩, ⟨400, 300⟩⟩
        ⟨50, 30⟩).size.width = 450 ∧
    (resizeMove 200 150 ['s', 'e'] ⟨0, 0, 400, 300⟩ ⟨⟨100, 100⟩, ⟨400, 300⟩⟩
        ⟨50, 30⟩).position.x = 100 ∧
    (resizeMove 200 150 ['s', 'e'] ⟨0, 0, 400, 300⟩ ⟨⟨100, 100⟩, ⟨400, 300⟩⟩
        ⟨50, 30⟩).size.height = 330 ∧
    (resizeMove 200 150 ['s', 'e'] ⟨0, 0, 400, 300⟩ ⟨⟨100, 100⟩, ⟨400, 300⟩⟩
        ⟨50, 30⟩).position.y = 100 := by
  have h := east_south_resize 200 150 ['s', 'e'] ⟨0, 0, 400, 300⟩
    ⟨⟨100, 100⟩, ⟨400, 300⟩⟩ ⟨50, 30⟩
  have h1 := h.1 (by decide) (by decide)
  have h2 := h.2 (by decide) (by decide)
  exact ⟨h1.1.trans (by decide), h1.2, h2.1.trans (by decide), h2.2⟩

/-- C2 counterexample: a west resize by +250 (shrinking) on a window of
width 400 at minWidth 200 does NOT yield width 200 with x shifted by 200 —
the candidate 150 is below the floor, so the engine leaves the whole
geometry untouched at (x=100, width=400). -/
theorem west_clamp_counterexample :
    runGesture 200 150 ⟨⟨100, 100⟩, ⟨400, 300⟩⟩
        (.resize ['w'] ⟨500, 300⟩ [⟨750, 300⟩]) =
      ⟨⟨100, 100⟩, ⟨400, 300⟩⟩ ∧
    ¬((runGesture 200 150 ⟨⟨100, 100⟩, ⟨400, 300⟩⟩
          (.resize ['w'] ⟨500, 300⟩ [⟨750, 300⟩])).size.width = 200 ∧
      (runGesture 200 150 ⟨⟨100, 100⟩, ⟨400, 300⟩⟩
          (.resize ['w'] ⟨500, 300⟩ [⟨750, 300⟩])).position.x = 100 + 200) := by
  decide

/-- C2 amended: a west pointer-move whose candidate width
`resizeAnchor.width - delta.x` falls below `minWidth` is absorbed whole —
the move leaves the position and both gesture-start dimensions unchanged
(no partial application: width is not clamped to the minimum and x does
not shift). -/
theorem west_clamp_absorbed (minW minH : Int) (rs : ResizeStart) (s : WinGeom)
    (e : Pt) (hlow : rs.width - (e.x - rs.x) < minW) :
    resizeMove minW minH ['w'] rs s e = ⟨s.position, ⟨rs.width, rs.height⟩⟩ := by
  simp [resizeMove, not_le.mpr hlow]

/-- Witness for the amended C2 at the spec's own numbers: west by +250 on
width 400 at minWidth 200 leaves the window at (x=100, width=400). -/
theorem west_clamp_absorbed_witness :
    resizeMove 200 150 ['w'] ⟨500, 300, 400, 300⟩ ⟨⟨100, 100⟩, ⟨400, 300⟩⟩
        ⟨750, 300⟩ = ⟨⟨100, 100⟩, ⟨400, 300⟩⟩ :=
  west_clamp_absorbed 200 150 ⟨500, 300, 400, 300⟩ ⟨⟨100, 100⟩, ⟨400, 300⟩⟩
    ⟨750, 300⟩ (by decide)

theorem resizeMove_width_ge (minW minH : Int) (dir : List Char) (rs : ResizeStart)
    (s : WinGeom) (e : Pt) (h : minW ≤ rs.width) :
    minW ≤ (resizeMove minW minH dir rs s e).size.width := by
  have hm : minW ≤ max minW (rs.width + (e.x - rs.x)) := le_max_left _ _
  by_cases hw : 'w' ∈ dir <;> by_cases he : 'e' ∈ dir <;>
    simp [resizeMove, hw, he] <;>
    first
    | assumption
    | (split <;> simp_all)

theorem resizeMove_height_ge (minW minH : Int) (dir : List Char) (rs : ResizeStart)
    (s : WinGeom) (e : Pt) (h : minH ≤ rs.height) :
    minH ≤ (resizeMove minW minH dir rs s e).size.height := by
  have hm : minH ≤ max minH (rs.height + (e.y - rs.y)) := le_max_left _ _
  by_cases hn : 'n' ∈ dir <;> by_cases hs : 's' ∈ dir <;>
    simp [resizeMove, hn, hs] <;>
    first
    | assumption
    | (split <;> simp_all)

theorem mem_scanl_inv {α β : Type} (f : β → α → β) (P : β → Prop)
    (hf : ∀ t a, P t → P (f t a)) :
    ∀ (l : List α) (s : β), P s → ∀ t ∈ List.scanl f s l, P t := by
  intro l
  induction l with
  | nil =>
      intro s hs t ht
      rw [List.scanl_nil, List.mem_singleton] at ht
      exact ht ▸ hs
  | cons a l ih =>
      intro s hs t ht
      rw [List.scanl_cons, List.singleton_append, List.mem_cons] at ht
      rcases ht with h | h
      · exact h ▸ hs
      · exact ih (f s a) (hf s a hs) t h

theorem foldl_move_inv {α β : Type} (f : β → α → β) (P : β → Prop)
    (hf : ∀ t a, P t → P (f t a)) :
    ∀ (l : List α) (s : β), P s → P (l.foldl f s) := by
  intro l
  induction l with
  | nil => intro s hs; exact hs
  | cons a l ih => intro s hs; rw [List.foldl_cons]; exact ih (f s a) (hf s a hs)

theorem gestureMoves_inv (minW minH : Int) (s : WinGeom) (g : Gesture)
    (hs : minW ≤ s.size.width ∧ minH ≤ s.size.height) :
    (∀ t ∈ gestureTrace minW minH s g,
        minW ≤ t.size.width ∧ minH ≤ t.size.height) ∧
    (minW ≤ (runGesture minW minH s g).size.width ∧
        minH ≤ (runGesture minW minH s g).size.height) := by
  cases g with
  | drag sp moves =>
      have hstep : ∀ (t : WinGeom) (a : Pt),
          (minW ≤ t.size.width ∧ minH ≤ t.size.height) →
          minW ≤ (dragMove (handleMouseDownDrag s sp) t a).size.width ∧
            minH ≤ (dragMove (handleMouseDownDrag s sp) t a).size.height := by
        intro t a ht
        simpa [dragMove] using ht
      exact ⟨mem_scanl_inv _ _ hstep moves s hs, foldl_move_inv _ _ hstep moves s hs⟩
  | resize dir sp moves =>
      have hstep : ∀ (t : WinGeom) (a : Pt),
          (minW ≤ t.size.width ∧ minH ≤ t.size.height) →
          minW ≤ (resizeMove minW minH dir (handleMouseDownResize s sp) t a).size.width ∧
            minH ≤ (resizeMove minW minH dir (handleMouseDownResize s sp) t a).size.height := by
        intro t a _
        exact ⟨resizeMove_width_ge _ _ _ _ _ _ hs.1, resizeMove_height_ge _ _ _ _ _ _ hs.2⟩
      exact ⟨mem_scanl_inv _ _ hstep moves s hs, foldl_move_inv _ _ hstep moves s hs⟩

/-- C4 counterexample: at creation nothing clamps a caller-supplied
initial size to the minimums — with `initialWidth = 100` and
`minWidth = 200` the freshly created window already violates
`size.width >= minSize.width`. -/
theorem size_floor_counterexample :
    ¬ ((⟨100, 100, 100, 300, 200, 150⟩ : FloatingWindowProps).minWidth ≤
        (initState ⟨100, 100, 100, 300, 200, 150⟩).size.width) := by
  decide

/-- C4 amended: provided the initial size respects the minimums (as the
defaults 400x300 over 200x150 do), `size.width >= minWidth` and
`size.height >= minHeight` hold at creation and at every state the window
passes through under any sequence of drag and resize gestures. -/
theorem size_floor_invariant (p : FloatingWindowProps) (gs : List Gesture)
    (hw : p.minWidth ≤ p.initialWidth) (hh : p.minHeight ≤ p.initialHeight) :
    ∀ t ∈ lifecycleTrace p.minWidth p.minHeight (initState p) gs,
      p.minWidth ≤ t.size.width ∧ p.minHeight ≤ t.size.height := by
  have key : ∀ (gs : List Gesture) (s : WinGeom),
      (p.minWidth ≤ s.size.width ∧ p.minHeight ≤ s.size.height) →
      ∀ t ∈ lifecycleTrace p.minWidth p.minHeight s gs,
        p.minWidth ≤ t.size.width ∧ p.minHeight ≤ t.size.height := by
    intro gs
    induction gs with
    | nil =>
        intro s hs t ht
        rw [lifecycleTrace, List.mem_singleton] at ht
        exact ht ▸ hs
    | cons g gs ih =>
        intro s hs t ht
        rw [lifecycleTrace, List.mem_append] at ht
        rcases ht with h | h
        · exact (gestureMoves_inv _ _ s g hs).1 t h
        · exact ih _ (gestureMoves_inv _ _ s g hs).2 t h
  exact key gs (initState p) ⟨hw, hh⟩

/-- Witness for the amended C4: the default window, taken through a west
resize whose candidate falls below the floor, stays at 400x300 — the
pre-gesture state is in the lifecycle trace and satisfies the floor. -/
theorem size_floor_invariant_witness :
    (200 : Int) ≤ (⟨⟨100, 100⟩, ⟨400, 300⟩⟩ : WinGeom).size.width ∧
    (150 : Int) ≤ (⟨⟨100, 100⟩, ⟨400, 300⟩⟩ : WinGeom).size.height :=
  size_floor_invariant ⟨100, 100, 400, 300, 200, 150⟩
    [.resize ['w'] ⟨500, 300⟩ [⟨750, 300⟩]] (by decide) (by decide)
    ⟨⟨100, 100⟩, ⟨400, 300⟩⟩ (by decide)

/-- C1: evaluation of the west-resize handler at a two-move gesture.  The
first pointer-move keeps the anchor invariant (x=90, width=410, east edge
at 500), but the second move adds the full cumulative delta to the
already-shifted position: the engine lands on x=70 instead of the claimed
`originalPositionX + delta.x = 80`, and the east edge drifts from 500 to
490 instead of staying fixed. -/
theorem west_anchor_drift :
    runGesture 200 150 ⟨⟨100, 100⟩, ⟨400, 300⟩⟩
        (.resize ['w'] ⟨500, 300⟩ [⟨490, 300⟩]) =
      ⟨⟨90, 100⟩, ⟨410, 300⟩⟩ ∧
    runGesture 200 150 ⟨⟨100, 100⟩, ⟨400, 300⟩⟩
        (.resize ['w'] ⟨500, 300⟩ [⟨490, 300⟩, ⟨480, 300⟩]) =
      ⟨⟨70, 100⟩, ⟨420, 300⟩⟩ ∧
    (70 : Int) + 420 ≠ 100 + 400 ∧
    (70 : Int) ≠ 100 + (480 - 500) := by
  decide

end FloatingWin

namespace Registry

/-- C6: `minimizeWindow(id)` followed by `restoreWindow(id)` is a
round-trip on everything except the transient `isMinimized`: the pair is
exactly the map that forces `isMinimized := false` on the matching record
and leaves every field of every record — geometry and z-order included —
otherwise bit-for-bit unchanged. -/
theorem minimize_restore_roundtrip (ws : List WindowState) (i : String) :
    restoreWindow (minimizeWindow ws i) i =
      ws.map (fun w => if w.id == i then { w with isMinimized := false } else w) := by
  unfold restoreWindow minimizeWindow
  rw [List.map_map]
  apply List.map_congr_left
  intro w _
  obtain ⟨wid, wtitle, wx, wy, ww, wh, wmw, wmh, wz, wm⟩ := w
  by_cases h1 : wid == i <;> cases wm <;> simp [h1, Function.comp]

/-- C7: every mutation named with an id that is not currently open —
`closeWindow`, `bringToFront`, `minimizeWindow`, `restoreWindow` — is a
silent no-op leaving the registry unchanged (the operations are total
functions, so no error signal exists); and a second `closeWindow` in a row
is a no-op with the registry count unaffected, from any state. -/
theorem unknown_id_noop (ws : List WindowState) (i : String)
    (h : hasId ws i = false) :
    closeWindow ws i = ws ∧ bringToFront ws i = ws ∧
    minimizeWindow ws i = ws ∧ restoreWindow ws i = ws ∧
    ∀ ws' : List WindowState,
      closeWindow (closeWindow ws' i) i = closeWindow ws' i ∧
      (closeWindow (closeWindow ws' i) i).length = (closeWindow ws' i).length := by
  have hall : ∀ w ∈ ws, (w.id == i) = false := by
    intro w hw
    by_contra hne
    have : hasId ws i = true := by
      unfold hasId
      rw [List.any_eq_true]
      exact ⟨w, hw, by simpa using hne⟩
    simp [this] at h
  refine ⟨?_, ?_, ?_, ?_, ?_⟩
  · unfold closeWindow
    apply List.filter_eq_self.mpr
    intro w hw
    simpa using hall w hw
  · unfold bringToFront
    simp [h]
  · unfold minimizeWindow
    have hmap : ∀ w ∈ ws,
        (if w.id == i && !w.isMinimized then { w with isMinimized := true } else w) = w := by
      intro w hw
      simp [hall w hw]
    exact (List.map_congr_left hmap).trans (List.map_id ws)
  · unfold restoreWindow
    have hmap : ∀ w ∈ ws,
        (if w.id == i && w.isMinimized then { w with isMinimized := false } else w) = w := by
      intro w hw
      simp [hall w hw]
    exact (List.map_congr_left hmap).trans (List.map_id ws)
  · intro ws'
    have hcc : closeWindow (closeWindow ws' i) i = closeWindow ws' i := by
      unfold closeWindow
      apply List.filter_eq_self.mpr
      intro w hw
      exact (List.mem_filter.mp hw).2
    exact ⟨hcc, by rw [hcc]⟩

/-- Witness for C7 at a concrete registry: every operation on the unknown
id "B" leaves `[recA]` unchanged, and closing "A" twice from
`[recA, recB]` is a no-op the second time with the count unaffected. -/
theorem unknown_id_noop_witness :
    closeWindow [recA] "B" = [recA] ∧ bringToFront [recA] "B" = [recA] ∧
    minimizeWindow [recA] "B" = [recA] ∧ restoreWindow [recA] "B" = [recA] ∧
    closeWindow (closeWindow [recA, recB] "A") "A" = closeWindow [recA, recB] "A" ∧
    (closeWindow (closeWindow [recA, recB] "A") "A").length =
      (closeWindow [recA, recB] "A").length := by
  have h := unknown_id_noop [recA] "B" (by decide)
  have hA := unknown_id_noop [recB] "A" (by decide)
  exact ⟨h.1, h.2.1, h.2.2.1, h.2.2.2.1,
    (hA.2.2.2.2 [recA, recB]).1, (hA.2.2.2.2 [recA, recB]).2⟩

theorem createWindow_existing (ws : List WindowState) (c : WindowConfig)
    (h : hasId ws c.id = true) : createWindow ws c = ws := by
  unfold createWindow
  simp [h]

/-- C5: `createWindow` with an id that already names an open window is a
silent no-op — no second record, the existing record untouched; in
particular creating "A" twice from a state without "A" leaves exactly one
record for "A", carrying the first call's title and geometry. -/
theorem createWindow_duplicate_noop :
    (∀ (ws : List WindowState) (c : WindowConfig), hasId ws c.id = true →
        createWindow ws c = ws) ∧
    (∀ (ws : List WindowState) (c c' : WindowConfig), c'.id = c.id →
        hasId ws c.id = false →
        createWindow (createWindow ws c) c' = createWindow ws c ∧
        (createWindow (createWindow ws c) c').filter (fun w => w.id == c.id) =
          [⟨c.id, c.title, c.initialX, c.initialY, c.initialWidth,
            c.initialHeight, c.minWidth, c.minHeight, nextZOrder ws, false⟩]) := by
  constructor
  · exact createWindow_existing
  · intro ws c c' hid h
    have h1 : createWindow ws c =
        ws ++ [⟨c.id, c.title, c.initialX, c.initialY, c.initialWidth,
          c.initialHeight, c.minWidth, c.minHeight, nextZOrder ws, false⟩] := by
      unfold createWindow
      simp [h]
    have h2 : hasId (createWindow ws c) c'.id = true := by
      rw [h1]
      unfold hasId
      rw [List.any_append]
      simp [hid]
    have houter : createWindow (createWindow ws c) c' = createWindow ws c :=
      createWindow_existing _ c' (hid ▸ h2)
    refine ⟨houter, ?_⟩
    rw [houter, h1, List.filter_append]
    have hnil : ws.filter (fun w => w.id == c.id) = [] := by
      apply List.filter_eq_nil_iff.mpr
      intro w hw
      by_contra hne
      have : hasId ws c.id = true := by
        unfold hasId
        rw [List.any_eq_true]
        exact ⟨w, hw, by simpa using hne⟩
      simp [this] at h
    rw [hnil]
    simp

/-- Witness for C5: creating "A" on `[recA]` again (with a different
config) is a no-op, and two successive creations of "A" from the empty
registry leave exactly the single record `recA`. -/
theorem createWindow_duplicate_noop_witness :
    createWindow [recA] cfgA2 = [recA] ∧
    createWindow (createWindow [] cfgA) cfgA2 = createWindow [] cfgA ∧
    (createWindow (createWindow [] cfgA) cfgA2).filter (fun w => w.id == cfgA.id) =
      [recA] := by
  have h := createWindow_duplicate_noop
  have h2 := h.2 [] cfgA cfgA2 rfl (by decide)
  refine ⟨h.1 [recA] cfgA2 (by decide), h2.1, ?_⟩
  rw [h2.2]
  decide

end Registry

namespace Registry

theorem foldl_max_start : ∀ (l : List WindowState) (init : Int),
    init ≤ l.foldl (fun m w => max m w.zOrder) init := by
  intro l
  induction l with
  | nil => intro init; exact le_refl _
  | cons a l ih =>
      intro init
      rw [List.foldl_cons]
      exact le_trans (le_max_left init a.zOrder) (ih (max init a.zOrder))

theorem mem_le_foldl_max : ∀ (l : List WindowState) (init : Int) (w : WindowState),
    w ∈ l → w.zOrder ≤ l.foldl (fun m v => max m v.zOrder) init := by
  intro l
  induction l with
  | nil => intro init w hw; exact absurd hw (List.not_mem_nil w)
  | cons a l ih =>
      intro init w hw
      rw [List.foldl_cons]
      rcases List.mem_cons.mp hw with h | h
      · rw [h]
        exact le_trans (le_max_right init a.zOrder) (foldl_max_start l _)
      · exact ih _ w h

theorem zOrder_lt_nextZOrder (ws : List WindowState) :
    ∀ w ∈ ws, w.zOrder < nextZOrder ws := by
  intro w hw
  unfold nextZOrder
  have := mem_le_foldl_max ws 1000 w hw
  omega

theorem nextZOrder_ge (ws : List WindowState) : 1001 ≤ nextZOrder ws := by
  unfold nextZOrder
  have := foldl_max_start ws 1000
  omega

theorem hasId_iff (ws : List WindowState) (i : String) :
    hasId ws i = true ↔ ∃ w ∈ ws, w.id = i := by
  unfold hasId
  rw [List.any_eq_true]
  simp

theorem createWindow_fresh (ws : List WindowState) (c : WindowConfig)
    (h : hasId ws c.id = false) :
    createWindow ws c =
      ws ++ [⟨c.id, c.title, c.initialX, c.initialY, c.initialWidth,
        c.initialHeight, c.minWidth, c.minHeight, nextZOrder ws, false⟩] := by
  unfold createWindow
  simp [h]

theorem bringToFront_present (ws : List WindowState) (i : String)
    (h : hasId ws i = true) :
    bringToFront ws i =
      ws.map (fun w => if w.id == i then { w with zOrder := nextZOrder ws } else w) := by
  unfold bringToFront
  simp [h]

theorem bringToFront_absent (ws : List WindowState) (i : String)
    (h : hasId ws i = false) : bringToFront ws i = ws := by
  unfold bringToFront
  simp [h]

theorem mem_id_unique : ∀ (ws : List WindowState),
    ws.Pairwise (fun a b => a.id ≠ b.id) →
    ∀ w ∈ ws, ∀ v ∈ ws, w.id = v.id → w = v := by
  intro ws
  induction ws with
  | nil => simp
  | cons a l ih =>
      intro hp w hw v hv he
      rcases List.pairwise_cons.mp hp with ⟨ha, hl⟩
      rcases List.mem_cons.mp hw with h1 | h1 <;> rcases List.mem_cons.mp hv with h2 | h2
      · rw [h1, h2]
      · rw [h1] at he ⊢
        exact absurd he (ha v h2)
      · rw [h2] at he ⊢
        exact absurd he.symm (ha w h1)
      · exact ih hl w h1 v h2 he

theorem RegInv_create (ws : List WindowState) (c : WindowConfig)
    (h : RegInv ws) : RegInv (createWindow ws c) := by
  obtain ⟨hpid, hpz, hge⟩ := h
  cases hdup : hasId ws c.id with
  | true => rw [createWindow_existing ws c hdup]; exact ⟨hpid, hpz, hge⟩
  | false =>
      rw [createWindow_fresh ws c hdup]
      have hfresh : ∀ w ∈ ws, w.id ≠ c.id := by
        intro w hw hne
        have : hasId ws c.id = true := (hasId_iff ws c.id).mpr ⟨w, hw, hne⟩
        rw [this] at hdup
        exact absurd hdup (by simp)
      refine ⟨?_, ?_, ?_⟩
      · rw [List.pairwise_append]
        refine ⟨hpid, by simp, ?_⟩
        intro a ha b hb
        rw [List.mem_singleton] at hb
        rw [hb]
        exact hfresh a ha
      · rw [List.pairwise_append]
        refine ⟨hpz, by simp, ?_⟩
        intro a ha b hb
        rw [List.mem_singleton] at hb
        rw [hb]
        exact Int.ne_of_lt (zOrder_lt_nextZOrder ws a ha)
      · intro w hw
        rcases List.mem_append.mp hw with hm | hm
        · exact hge w hm
        · rw [List.mem_singleton] at hm
          rw [hm]
          exact nextZOrder_ge ws

theorem RegInv_close (ws : List WindowState) (i : String)
    (h : RegInv ws) : RegInv (closeWindow ws i) := by
  obtain ⟨hpid, hpz, hge⟩ := h
  have hsub : (closeWindow ws i).Sublist ws := List.filter_sublist ws
  exact ⟨hpid.sublist hsub, hpz.sublist hsub,
    fun w hw => hge w (hsub.subset hw)⟩

theorem RegInv_front (ws : List WindowState) (i : String)
    (h : RegInv ws) : RegInv (bringToFront ws i) := by
  obtain ⟨hpid, hpz, hge⟩ := h
  cases hid : hasId ws i with
  | false => rw [bringToFront_absent ws i hid]; exact ⟨hpid, hpz, hge⟩
  | true =>
      rw [bringToFront_present ws i hid]
      have fid : ∀ w : WindowState,
          (if w.id == i then { w with zOrder := nextZOrder ws } else w).id = w.id := by
        intro w
        split <;> rfl
      refine ⟨?_, ?_, ?_⟩
      · rw [List.pairwise_map]
        simp only [fid]
        exact hpid
      · rw [List.pairwise_map]
        refine (hpid.and hpz).imp_of_mem ?_
        intro a b ha hb hab
        by_cases h1 : a.id == i <;> by_cases h2 : b.id == i
        · exact absurd ((beq_iff_eq.mp h1).trans (beq_iff_eq.mp h2).symm) hab.1
        · simp only [h1, h2, if_true, if_false]
          exact (zOrder_lt_nextZOrder ws b hb).ne'
        · simp only [h1, h2, if_true, if_false]
          exact Int.ne_of_lt (zOrder_lt_nextZOrder ws a ha)
        · simp only [h1, h2, if_false]
          exact hab.2
      · intro w hw
        rw [List.mem_map] at hw
        obtain ⟨v, hv, rfl⟩ := hw
        by_cases h1 : v.id == i <;> simp only [h1, if_true, if_false]
        · exact nextZOrder_ge ws
        · exact hge v hv

theorem RegInv_minimize (ws : List WindowState) (i : String)
    (h : RegInv ws) : RegInv (minimizeWindow ws i) := by
  obtain ⟨hpid, hpz, hge⟩ := h
  unfold minimizeWindow
  have fid : ∀ w : WindowState,
      (if w.id == i && !w.isMinimized then { w with isMinimized := true } else w).id = w.id := by
    intro w
    split <;> rfl
  have fz : ∀ w : WindowState,
      (if w.id == i && !w.isMinimized then { w with isMinimized := true } else w).zOrder = w.zOrder := by
    intro w
    split <;> rfl
  refine ⟨?_, ?_, ?_⟩
  · rw [List.pairwise_map]
    simp only [fid]
    exact hpid
  · rw [List.pairwise_map]
    simp only [fz]
    exact hpz
  · intro w hw
    rw [List.mem_map] at hw
    obtain ⟨v, hv, rfl⟩ := hw
    rw [fz]
    exact hge v hv

theorem RegInv_restore (ws : List WindowState) (i : String)
    (h : RegInv ws) : RegInv (restoreWindow ws i) := by
  obtain ⟨hpid, hpz, hge⟩ := h
  unfold restoreWindow
  have fid : ∀ w : WindowState,
      (if w.id == i && w.isMinimized then { w with isMinimized := false } else w).id = w.id := by
    intro w
    split <;> rfl
  have fz : ∀ w : WindowState,
      (if w.id == i && w.isMinimized then { w with isMinimized := false } else w).zOrder = w.zOrder := by
    intro w
    split <;> rfl
  refine ⟨?_, ?_, ?_⟩
  · rw [List.pairwise_map]
    simp only [fid]
    exact hpid
  · rw [List.pairwise_map]
    simp only [fz]
    exact hpz
  · intro w hw
    rw [List.mem_map] at hw
    obtain ⟨v, hv, rfl⟩ := hw
    rw [fz]
    exact hge v hv

theorem RegInv_applyOp (ws : List WindowState) (op : Op)
    (h : RegInv ws) : RegInv (applyOp ws op) := by
  cases op with
  | create c => exact RegInv_create ws c h
  | close i => exact RegInv_close ws i h
  | front i => exact RegInv_front ws i h
  | minimize i => exact RegInv_minimize ws i h
  | restore i => exact RegInv_restore ws i h

theorem RegInv_nil : RegInv [] :=
  ⟨List.Pairwise.nil, List.Pairwise.nil, by simp⟩

theorem RegInv_runOps : ∀ (ops : List Op) (ws : List WindowState),
    RegInv ws → RegInv (runOps ws ops) := by
  intro ops
  induction ops with
  | nil => intro ws h; exact h
  | cons op ops ih => intro ws h; exact ih (applyOp ws op) (RegInv_applyOp ws op h)

end Registry

namespace Registry

theorem createWindow_sortedZ (ws : List WindowState) (c : WindowConfig)
    (h : SortedZ ws) : SortedZ (createWindow ws c) := by
  cases hdup : hasId ws c.id with
  | true => rw [createWindow_existing ws c hdup]; exact h
  | false =>
      rw [createWindow_fresh ws c hdup]
      unfold SortedZ at h ⊢
      rw [List.pairwise_append]
      refine ⟨h, by simp, ?_⟩
      intro a ha b hb
      rw [List.mem_singleton] at hb
      rw [hb]
      exact zOrder_lt_nextZOrder ws a ha

theorem creations_sortedZ : ∀ (cs : List WindowConfig) (ws : List WindowState),
    SortedZ ws → SortedZ (runOps ws (cs.map Op.create)) := by
  intro cs
  induction cs with
  | nil => intro ws h; exact h
  | cons c cs ih =>
      intro ws h
      exact ih (createWindow ws c) (createWindow_sortedZ ws c h)

theorem zOrder_never_lowered (ws : List WindowState)
    (hpid : ws.Pairwise (fun a b => a.id ≠ b.id)) (op : Op) :
    ∀ w ∈ ws, ∀ w' ∈ applyOp ws op, w'.id = w.id → w.zOrder ≤ w'.zOrder := by
  have hsame : ∀ w ∈ ws, ∀ w' ∈ ws, w'.id = w.id → w.zOrder ≤ w'.zOrder := by
    intro w hw w' hw' he
    rw [mem_id_unique ws hpid w' hw' w hw he]
  intro w hw w' hw' he
  cases op with
  | create c =>
      simp only [applyOp] at hw'
      cases hdup : hasId ws c.id with
      | true =>
          rw [createWindow_existing ws c hdup] at hw'
          exact hsame w hw w' hw' he
      | false =>
          rw [createWindow_fresh ws c hdup] at hw'
          rcases List.mem_append.mp hw' with hm | hm
          · exact hsame w hw w' hm he
          · rw [List.mem_singleton] at hm
            rw [hm] at he
            have : hasId ws c.id = true := (hasId_iff ws c.id).mpr ⟨w, hw, he.symm⟩
            rw [this] at hdup
            exact absurd hdup (by simp)
  | close i =>
      simp only [applyOp] at hw'
      exact hsame w hw w' (List.mem_of_mem_filter hw') he
  | front i =>
      simp only [applyOp] at hw'
      cases hid : hasId ws i with
      | false =>
          rw [bringToFront_absent ws i hid] at hw'
          exact hsame w hw w' hw' he
      | true =>
          rw [bringToFront_present ws i hid] at hw'
          rw [List.mem_map] at hw'
          obtain ⟨v, hv, rfl⟩ := hw'
          by_cases h1 : v.id == i
          · simp only [h1, if_true] at he ⊢
            have hvw : v = w := mem_id_unique ws hpid v hv w hw he
            rw [← hvw]
            exact le_of_lt (zOrder_lt_nextZOrder ws v hv)
          · simp only [h1, if_false] at he ⊢
            exact hsame w hw v hv he
  | minimize i =>
      simp only [applyOp] at hw'
      unfold minimizeWindow at hw'
      rw [List.mem_map] at hw'
      obtain ⟨v, hv, rfl⟩ := hw'
      by_cases h1 : v.id == i && !v.isMinimized
      · simp only [h1, if_true] at he ⊢
        have hvw : v = w := mem_id_unique ws hpid v hv w hw he
        rw [← hvw]
      · simp only [h1, if_false] at he ⊢
        exact hsame w hw v hv he
  | restore i =>
      simp only [applyOp] at hw'
      unfold restoreWindow at hw'
      rw [List.mem_map] at hw'
      obtain ⟨v, hv, rfl⟩ := hw'
      by_cases h1 : v.id == i && v.isMinimized
      · simp only [h1, if_true] at he ⊢
        have hvw : v = w := mem_id_unique ws hpid v hv w hw he
        rw [← hvw]
      · simp only [h1, if_false] at he ⊢
        exact hsame w hw v hv he

end Registry

namespace Registry

/-- C3 counterexample: assigned z-order values are NOT strictly increasing
across the whole process lifetime — after create "A" (1001), create "B"
(1002) and close "B", the next create is assigned `max(1001, 1000) + 1 =
1002` again, so the lifetime assignment stream is `[1001, 1002, 1002]`. -/
theorem zOrder_lifetime_counterexample :
    assignedTrace [] [Op.create cfgA, Op.create cfgB, Op.close "B", Op.create cfgC] =
      [1001, 1002, 1002] ∧
    ¬ List.Chain' (fun a b : Int => a < b)
        (assignedTrace [] [Op.create cfgA, Op.create cfgB, Op.close "B", Op.create cfgC]) := by
  have htr : assignedTrace []
      [Op.create cfgA, Op.create cfgB, Op.close "B", Op.create cfgC] =
      [1001, 1002, 1002] := by decide
  refine ⟨htr, ?_⟩
  intro h
  rw [htr] at h
  rcases List.chain'_cons.mp h with ⟨_, h2⟩
  rcases List.chain'_cons.mp h2 with ⟨h3, _⟩
  exact absurd h3 (by decide)

/-- C3 (amended): every z-order the Registry assigns (at `createWindow`
and at `bringToFront`) is `max(current zOrders, 1000) + 1` computed
freshly, so it strictly exceeds the z-order of every window open at
assignment time.  Consequently (1) each assigned value beats all current
ones, (2) in every reachable registry state the open windows' z-orders
are pairwise distinct and all >= 1001, (3) any sequence of creations
leaves the windows strictly increasing in creation order, (4)
`bringToFront` on a present id lifts that window strictly above every
pre-call z-order, and (5) no window's z-order is ever reassigned to a
smaller value.  (Strict increase over the whole lifetime fails once
`closeWindow` removes the top window — see the counterexample.) -/
theorem zOrder_freshness :
    (∀ (ws : List WindowState) (op : Op) (z : Int), z ∈ assignedBy ws op →
        ∀ w ∈ ws, w.zOrder < z) ∧
    (∀ ops : List Op, (runOps [] ops).Pairwise (fun a b => a.zOrder ≠ b.zOrder) ∧
        ∀ w ∈ runOps [] ops, 1001 ≤ w.zOrder) ∧
    (∀ cs : List WindowConfig, SortedZ (runOps [] (cs.map Op.create))) ∧
    (∀ (ws : List WindowState) (i : String), hasId ws i = true →
        ∀ w' ∈ bringToFront ws i, w'.id = i → ∀ w ∈ ws, w.zOrder < w'.zOrder) ∧
    (∀ (ops : List Op) (op : Op), ∀ w ∈ runOps [] ops,
        ∀ w' ∈ applyOp (runOps [] ops) op, w'.id = w.id → w.zOrder ≤ w'.zOrder) := by
  refine ⟨?_, ?_, ?_, ?_, ?_⟩
  · intro ws op z hz w hw
    cases op with
    | create c =>
        simp only [assignedBy] at hz
        split at hz
        · exact absurd hz (List.not_mem_nil z)
        · rw [List.mem_singleton] at hz
          rw [hz]
          exact zOrder_lt_nextZOrder ws w hw
    | close i => exact absurd hz (List.not_mem_nil z)
    | front i =>
        simp only [assignedBy] at hz
        split at hz
        · rw [List.mem_singleton] at hz
          rw [hz]
          exact zOrder_lt_nextZOrder ws w hw
        · exact absurd hz (List.not_mem_nil z)
    | minimize i => exact absurd hz (List.not_mem_nil z)
    | restore i => exact absurd hz (List.not_mem_nil z)
  · intro ops
    obtain ⟨hpid, hpz, hge⟩ := RegInv_runOps ops [] RegInv_nil
    exact ⟨hpz, hge⟩
  · intro cs
    exact creations_sortedZ cs [] List.Pairwise.nil
  · intro ws i hid w' hw' hwid w hw
    rw [bringToFront_present ws i hid] at hw'
    rw [List.mem_map] at hw'
    obtain ⟨v, hv, rfl⟩ := hw'
    by_cases h1 : v.id == i
    · simp only [h1, if_true]
      exact zOrder_lt_nextZOrder ws w hw
    · simp only [h1, if_false] at hwid
      exact absurd hwid (by simpa using h1)
  · intro ops op w hw w' hw' he
    exact zOrder_never_lowered (runOps [] ops)
      (RegInv_runOps ops [] RegInv_nil).1 op w hw w' hw' he

/-- Witness for the amended C3 on a concrete run: creating "A" then "B"
from empty yields z-orders 1001 < 1002, the next assignment 1003 beats
both, `bringToFront "A"` lifts "A" (to `recA3` at 1003) above "B", and
never below its old value. -/
theorem zOrder_freshness_witness :
    recA.zOrder < 1003 ∧
    (1001 : Int) ≤ recA.zOrder ∧
    SortedZ (runOps [] ([cfgA, cfgB].map Op.create)) ∧
    recB.zOrder < recA3.zOrder ∧
    recA.zOrder ≤ recA3.zOrder := by
  have h := zOrder_freshness
  refine ⟨?_, ?_, h.2.2.1 [cfgA, cfgB], ?_, ?_⟩
  · exact h.1 [recA, recB] (Op.create cfgC) 1003 (by decide) recA (by decide)
  · exact (h.2.1 [Op.create cfgA]).2 recA (by decide)
  · exact h.2.2.2.1 [recA, recB] "A" (by decide) recA3 (by decide) (by decide)
      recB (by decide)
  · exact h.2.2.2.2 [Op.create cfgA, Op.create cfgB] (Op.front "A") recA (by decide)
      recA3 (by decide) (by decide)

end Registry
